import Mathlib

/-!
Shallow embedding of the chunked HTTP downloader (`src/config.rs`,
`src/http.rs`, `src/main.rs`).

The program probes a resource for its `Content-Length` and
`Accept-Ranges` headers, partitions `[0, total_length)` into
`CONFIG.size` contiguous byte ranges, downloads each range concurrently
into a block file named by its index, and finally concatenates the block
files in index order into the destination file, removing the scratch
directory on success.

Bytes are modelled as `Nat`, file contents as `List Nat`, machine
`usize` arithmetic as `Nat` with explicit reasoning about truncated
subtraction where it matters.
-/

namespace Download

/-- A half-open byte range `[start, start + length)`, as produced by the
partition loop in `run` (`src/http.rs` lines 163-179). -/
structure ByteRange where
  start : Nat
  length : Nat
deriving Repr, DecidableEq

instance : Inhabited ByteRange := ⟨⟨0, 0⟩⟩

/-- The partition computed in `run` (`src/http.rs` lines 163-179):
`block_size = content_length / size`, `first_attach = content_length % size`;
block 0 is `[0, block_size + first_attach)` and block `i` for `1 ≤ i < size`
starts at `i * block_size + first_attach` with length `block_size`.
The list mirrors the `handles` vector: block 0 first, then blocks `1..size`. -/
def partition (total_length n : Nat) : List ByteRange :=
  let block_size := total_length / n
  let first_attach := total_length % n
  let first_block_size := block_size + first_attach
  ByteRange.mk 0 first_block_size ::
    (List.range' 1 (n - 1)).map
      (fun i => ByteRange.mk (i * block_size + first_attach) block_size)

/-- Block `i` of the partition (defaulting to the empty range out of bounds). -/
def rangeAt (total_length n i : Nat) : ByteRange :=
  (partition total_length n).getD i default

lemma partition_length (tl n : Nat) : (partition tl n).length = 1 + (n - 1) := by
  simp [partition]
  omega

lemma range'_map_getD (bs r : Nat) :
    ∀ (m k j : Nat), j < m →
      ((List.range' k m).map
          (fun i => ByteRange.mk (i * bs + r) bs)).getD j default
        = ⟨(k + j) * bs + r, bs⟩ := by
  intro m
  induction m with
  | zero => intro k j h; omega
  | succ m ih =>
    intro k j h
    cases j with
    | zero => simp [List.range'_succ]
    | succ j =>
      have h' : j < m := by omega
      simp only [List.range'_succ, List.map_cons, List.getD_cons_succ]
      rw [ih (k + 1) j h']
      have hk : k + 1 + j = k + (j + 1) := by omega
      rw [hk]

/-- Closed form for the blocks of the partition. -/
lemma rangeAt_eq (tl n i : Nat) (h : i < n) :
    rangeAt tl n i =
      if i = 0 then ⟨0, tl / n + tl % n⟩
      else ⟨i * (tl / n) + tl % n, tl / n⟩ := by
  cases i with
  | zero => simp [rangeAt, partition]
  | succ i =>
    have h' : i < n - 1 := by omega
    simp only [rangeAt, partition, List.getD_cons_succ]
    rw [range'_map_getD _ _ _ _ _ h']
    simp [Nat.add_comm 1 i]

lemma partition_map_length_sum (tl n : Nat) (hn : 1 ≤ n) :
    ((partition tl n).map ByteRange.length).sum = tl := by
  have hrep : (List.range' 1 (n - 1)).map
      (ByteRange.length ∘ fun i => ByteRange.mk (i * (tl / n) + tl % n) (tl / n))
      = List.replicate (n - 1) (tl / n) := by
    rw [List.eq_replicate_iff]
    refine ⟨by simp, ?_⟩
    intro b hb
    simp only [List.mem_map, Function.comp] at hb
    obtain ⟨a, _, hab⟩ := hb
    exact hab.symm
  simp only [partition, List.map_cons, List.map_map, List.sum_cons, hrep,
    List.sum_replicate, smul_eq_mul]
  have hdm := Nat.div_add_mod tl n
  have hle : tl / n ≤ n * (tl / n) := Nat.le_mul_of_pos_left _ (by omega)
  rw [Nat.sub_mul]
  omega

/-- C1: for every `total_length ≥ 0` and `n ≥ 1`, the partition computed in
`run` yields `n` ranges that start at 0, are contiguous in index order,
pairwise non-overlapping, and whose lengths sum to exactly `total_length`;
in particular `total_length = 100`, `n = 3` gives `[0,34)`, `[34,67)`,
`[67,100)`. -/
theorem partition_partitions_correctly (tl n : Nat) (hn : 1 ≤ n) :
    (partition tl n).length = n ∧
    (rangeAt tl n 0).start = 0 ∧
    (∀ i, i + 1 < n →
      (rangeAt tl n i).start + (rangeAt tl n i).length
        = (rangeAt tl n (i + 1)).start) ∧
    (∀ i j, i < j → j < n →
      (rangeAt tl n i).start + (rangeAt tl n i).length ≤ (rangeAt tl n j).start) ∧
    ((partition tl n).map ByteRange.length).sum = tl ∧
    partition 100 3 = [⟨0, 34⟩, ⟨34, 33⟩, ⟨67, 33⟩] := by
  refine ⟨by rw [partition_length]; omega, ?_, ?_, ?_, partition_map_length_sum tl n hn, by decide⟩
  · rw [rangeAt_eq tl n 0 (by omega)]
    simp
  · intro i hi
    rw [rangeAt_eq tl n i (by omega), rangeAt_eq tl n (i + 1) (by omega)]
    cases i with
    | zero => simp
    | succ i =>
      simp only [Nat.succ_ne_zero, if_neg, if_false]
      have : (i + 1 + 1) * (tl / n) = (i + 1) * (tl / n) + tl / n := by
        rw [Nat.succ_mul]
      omega
  · intro i j hij hj
    rw [rangeAt_eq tl n i (by omega), rangeAt_eq tl n j (by omega)]
    have hj0 : j ≠ 0 := by omega
    cases i with
    | zero =>
      rw [if_pos rfl, if_neg hj0]
      have : 1 * (tl / n) ≤ j * (tl / n) := Nat.mul_le_mul_right _ (by omega)
      simp only [Nat.one_mul] at this
      simp only [ByteRange.mk.injEq]
      omega
    | succ i =>
      simp only [Nat.succ_ne_zero, if_neg, if_neg hj0, if_false]
      have : (i + 1 + 1) * (tl / n) ≤ j * (tl / n) := Nat.mul_le_mul_right _ (by omega)
      have h2 : (i + 1 + 1) * (tl / n) = (i + 1) * (tl / n) + tl / n := by
        rw [Nat.succ_mul]
      omega

/-- Witness for C1 at `total_length = 100`, `n = 3`. -/
theorem partition_partitions_correctly_witness :
    1 ≤ 3 ∧
    ((partition 100 3).length = 3 ∧
    (rangeAt 100 3 0).start = 0 ∧
    (∀ i, i + 1 < 3 →
      (rangeAt 100 3 i).start + (rangeAt 100 3 i).length
        = (rangeAt 100 3 (i + 1)).start) ∧
    (∀ i j, i < j → j < 3 →
      (rangeAt 100 3 i).start + (rangeAt 100 3 i).length ≤ (rangeAt 100 3 j).start) ∧
    ((partition 100 3).map ByteRange.length).sum = 100 ∧
    partition 100 3 = [⟨0, 34⟩, ⟨34, 33⟩, ⟨67, 33⟩]) :=
  ⟨by decide, partition_partitions_correctly 100 3 (by decide)⟩

/-! ## Merge engine (`merge_file`, `src/http.rs` lines 98-139) -/

/-- Fixed read-buffer size used by `merge_file` (`const BUF_SIZE: u64 = 1024`). -/
def BUF_SIZE : Nat := 1024

/-- The `count = size / BUF_SIZE` full reads of `BUF_SIZE` bytes done by the
`for _ in 0..count` loop of `merge_file`: each `read_exact` consumes the next
`BUF_SIZE` bytes of the block file. -/
def fullChunks : Nat → List Nat → List (List Nat)
  | 0, _ => []
  | k + 1, bytes => bytes.take BUF_SIZE :: fullChunks k (bytes.drop BUF_SIZE)

/-- The sequence of reads `merge_file` performs on one block file of contents
`bytes`: first one buffer of `size % BUF_SIZE` bytes
(`first_buf_size = size % BUF_SIZE`), then `size / BUF_SIZE` buffers of
`BUF_SIZE` bytes. -/
def blockChunks (bytes : List Nat) : List (List Nat) :=
  let size := bytes.length
  let count := size / BUF_SIZE
  let first_buf_size := size % BUF_SIZE
  bytes.take first_buf_size :: fullChunks count (bytes.drop first_buf_size)

/-- Appending one block file to the output file: each chunk read is written
with `write_all`, in read order. -/
def mergeBlock (out block : List Nat) : List Nat :=
  out ++ (blockChunks block).flatten

/-- `merge_file`: iterate over block files in index order `0..CONFIG.size`,
appending each one's chunks to the output file, which is opened in
create-plus-append mode (its prior contents `out0` are kept). -/
def mergeFile (out0 : List Nat) (blocks : List (List Nat)) : List Nat :=
  blocks.foldl mergeBlock out0

lemma fullChunks_flatten (k : Nat) :
    ∀ bytes : List Nat, (fullChunks k bytes).flatten = bytes.take (k * BUF_SIZE) := by
  induction k with
  | zero => intro bytes; simp [fullChunks]
  | succ k ih =>
    intro bytes
    simp only [fullChunks, List.flatten_cons, ih]
    have hmul : (k + 1) * BUF_SIZE = BUF_SIZE + k * BUF_SIZE := by
      rw [Nat.succ_mul]; omega
    rw [hmul, List.take_add]

lemma fullChunks_map_length (k : Nat) :
    ∀ bytes : List Nat, k * BUF_SIZE ≤ bytes.length →
      (fullChunks k bytes).map List.length = List.replicate k BUF_SIZE := by
  induction k with
  | zero => intro bytes _; simp [fullChunks]
  | succ k ih =>
    intro bytes h
    have hb : BUF_SIZE ≤ bytes.length := by
      have : 1 * BUF_SIZE ≤ (k + 1) * BUF_SIZE := Nat.mul_le_mul_right _ (by omega)
      omega
    simp only [fullChunks, List.map_cons, List.length_take]
    rw [min_eq_left hb, ih]
    · rfl
    · simp only [List.length_drop]
      have : (k + 1) * BUF_SIZE = k * BUF_SIZE + BUF_SIZE := by rw [Nat.succ_mul]
      omega

/-- The chunked read of `merge_file` copies the whole block file. -/
lemma blockChunks_flatten (bytes : List Nat) : (blockChunks bytes).flatten = bytes := by
  simp only [blockChunks, List.flatten_cons, fullChunks_flatten]
  rw [← List.take_add, Nat.mod_add_div' bytes.length BUF_SIZE, List.take_length]

/-- Sizes of the reads `merge_file` performs on one block file. -/
lemma blockChunks_map_length (bytes : List Nat) :
    (blockChunks bytes).map List.length
      = bytes.length % BUF_SIZE :: List.replicate (bytes.length / BUF_SIZE) BUF_SIZE := by
  have hmd := Nat.mod_add_div' bytes.length BUF_SIZE
  simp only [blockChunks, List.map_cons, List.length_take]
  rw [min_eq_left (Nat.mod_le _ _), fullChunks_map_length]
  simp only [List.length_drop]
  omega

lemma mergeFile_eq_append (out0 : List Nat) (blocks : List (List Nat)) :
    mergeFile out0 blocks = out0 ++ blocks.flatten := by
  induction blocks generalizing out0 with
  | nil => simp [mergeFile]
  | cons b bs ih =>
    simp only [mergeFile, List.foldl_cons, List.flatten_cons] at *
    rw [ih, mergeBlock, blockChunks_flatten, List.append_assoc]

/-- C5 (amended): `merge_file` reads each block file of length `L`
sequentially as one initial partial chunk of exactly `L mod 1024` bytes
followed by `L / 1024` chunks of exactly 1024 bytes; the chunk sizes sum to
exactly `L`, so the whole block file is copied. -/
theorem blockChunks_read_pattern (bytes : List Nat) :
    (blockChunks bytes).map List.length
      = bytes.length % 1024 :: List.replicate (bytes.length / 1024) 1024 ∧
    ((blockChunks bytes).map List.length).sum = bytes.length ∧
    (blockChunks bytes).flatten = bytes := by
  refine ⟨blockChunks_map_length bytes, ?_, blockChunks_flatten bytes⟩
  rw [← List.length_flatten, blockChunks_flatten]

/-- C5 counterexample: for a block file of length 1025 the reads are
`[1, 1024]` — the partial chunk of `L mod 1024` bytes comes FIRST, not as
one final chunk after the `L / 1024` full chunks as the claim states. -/
theorem blockChunks_partial_chunk_is_first :
    (blockChunks (List.replicate 1025 0)).map List.length = [1, 1024] ∧
    (blockChunks (List.replicate 1025 0)).map List.length
      ≠ List.replicate (1025 / 1024) 1024 ++ [1025 % 1024] := by
  have h : (blockChunks (List.replicate 1025 0)).map List.length = [1, 1024] := by
    rw [blockChunks_map_length, List.length_replicate]
    norm_num [BUF_SIZE]
  refine ⟨h, ?_⟩
  rw [h]
  norm_num

/-! ## Round trip: partition, block files, merge -/

/-- The bytes of the resource `data` covered by a range `r`, i.e. what a
correct block download stores in block file `r`. -/
def blockBytes (data : List Nat) (r : ByteRange) : List Nat :=
  (data.drop r.start).take r.length

/-- The ranges in the list are contiguous, the first starting at `s`. -/
def contiguousFrom : Nat → List ByteRange → Prop
  | _, [] => True
  | s, r :: rs => r.start = s ∧ contiguousFrom (s + r.length) rs

lemma flatten_map_blockBytes (data : List Nat) :
    ∀ (rs : List ByteRange) (s : Nat), contiguousFrom s rs →
      (rs.map (blockBytes data)).flatten
        = (data.drop s).take ((rs.map ByteRange.length).sum) := by
  intro rs
  induction rs with
  | nil => intro s _; simp
  | cons r rs ih =>
    intro s hc
    obtain ⟨hs, hrest⟩ := hc
    simp only [List.map_cons, List.flatten_cons, List.sum_cons]
    rw [ih (s + r.length) hrest, List.take_add, List.drop_drop]
    simp [blockBytes, hs]

lemma contiguousFrom_range'_map (bs r : Nat) :
    ∀ (m k : Nat), contiguousFrom (k * bs + r)
      ((List.range' k m).map (fun i => ByteRange.mk (i * bs + r) bs)) := by
  intro m
  induction m with
  | zero => intro k; simp [contiguousFrom]
  | succ m ih =>
    intro k
    simp only [List.range'_succ, List.map_cons, contiguousFrom]
    refine ⟨by simp, ?_⟩
    have hk : k * bs + r + bs = (k + 1) * bs + r := by rw [Nat.succ_mul]; omega
    rw [hk]
    exact ih (k + 1)

lemma partition_contiguous (tl n : Nat) :
    contiguousFrom 0 (partition tl n) := by
  simp only [partition, contiguousFrom]
  refine ⟨by simp, ?_⟩
  have h1 : 0 + (tl / n + tl % n) = 1 * (tl / n) + tl % n := by
    rw [Nat.one_mul]; omega
  rw [h1]
  exact contiguousFrom_range'_map (tl / n) (tl % n) (n - 1) 1

/-- C2: if each block file holds exactly the bytes of its ByteRange, then
`merge_file` concatenates the blocks in index order into an initially empty
output, reproducing the resource byte-for-byte; in particular the output for
`n = 1` equals the output for any `n ≥ 1`. -/
theorem merge_round_trip (data : List Nat) (n : Nat) (hn : 1 ≤ n) :
    mergeFile [] ((partition data.length n).map (blockBytes data)) = data ∧
    mergeFile [] ((partition data.length 1).map (blockBytes data))
      = mergeFile [] ((partition data.length n).map (blockBytes data)) := by
  have key : ∀ m, 1 ≤ m →
      mergeFile [] ((partition data.length m).map (blockBytes data)) = data := by
    intro m hm
    rw [mergeFile_eq_append, List.nil_append,
      flatten_map_blockBytes data _ 0 (partition_contiguous data.length m),
      partition_map_length_sum data.length m hm, List.drop_zero, List.take_length]
  exact ⟨key n hn, by rw [key n hn, key 1 (by omega)]⟩

/-- Witness for C2 with resource `[5, 6, 7]` and `n = 2`. -/
theorem merge_round_trip_witness :
    1 ≤ 2 ∧
    (mergeFile []
        ((partition (List.length [5, 6, 7]) 2).map (blockBytes [5, 6, 7]))
        = [5, 6, 7] ∧
      mergeFile []
        ((partition (List.length [5, 6, 7]) 1).map (blockBytes [5, 6, 7]))
        = mergeFile []
            ((partition (List.length [5, 6, 7]) 2).map (blockBytes [5, 6, 7]))) :=
  ⟨by decide, merge_round_trip [5, 6, 7] 2 (by decide)⟩

/-- C10: `merge_file` opens the destination in create-plus-append mode and
never truncates it, so any bytes present at the destination when the merge
begins are preserved unchanged and the merged block bytes are appended after
them. -/
theorem merge_appends_after_existing_bytes (out0 : List Nat)
    (blocks : List (List Nat)) :
    mergeFile out0 blocks = out0 ++ blocks.flatten :=
  mergeFile_eq_append out0 blocks

/-! ## The run coordinator (`run`, `src/http.rs` lines 141-187) -/

/-- The Range header value built in `download_block` (`src/http.rs` line 69),
`bytes=start-(start + block_size - 1)`, the upper bound computed in `usize`
arithmetic. -/
def rangeHeaderValue (start block_size : Nat) : String :=
  "bytes=" ++ toString start ++ "-" ++ toString (start + block_size - 1)

/-- The single request issued by one `download_block` call. -/
def downloadBlockRequests (start block_size : Nat) : List String :=
  [rangeHeaderValue start block_size]

/-- Numeric value of an ASCII digit. -/
def digitVal (c : Char) : Option Nat :=
  if 48 ≤ c.toNat ∧ c.toNat ≤ 57 then some (c.toNat - 48) else none

/-- Accumulate decimal digits; any non-digit character is a parse error. -/
def parseDigitsAux : List Char → Nat → Option Nat
  | [], acc => some acc
  | c :: cs, acc =>
    match digitVal c with
    | none => none
    | some d => parseDigitsAux cs (acc * 10 + d)

/-- Model of Rust `str::parse::<usize>()` as used on the Content-Length
header value: an optional leading `+` sign followed by one or more ASCII
digits (overflow is not modelled; lengths are unbounded `Nat`). -/
def parseUsize (s : String) : Option Nat :=
  match s.data with
  | [] => none
  | c :: cs =>
    if c = '+' then
      match cs with
      | [] => none
      | _ => parseDigitsAux cs 0
    else parseDigitsAux (c :: cs) 0

/-- Outcome of one block's GET request as seen by `download_block`: either a
transport-level error from `CLIENT.request`, or a response with a status code
and a body. -/
inductive BlockOutcome where
  | transportError
  | response (status : Nat) (body : List Nat)
deriving Repr, DecidableEq

/-- Errors surfaced by the run; the source returns `anyhow` errors, named
here after the spec's taxonomy. `invalidLength` is the distinct error of
`parse::<usize>()` on a malformed Content-Length value, and
`probeTransportError` the distinct error of a failed HEAD request. -/
inductive DlError where
  | destinationExists
  | probeTransportError
  | missingLength
  | invalidLength
  | rangeUnsupported
  | transferError (index : Nat)
  | mergeIOError
deriving Repr, DecidableEq

/-- The external world one run interacts with. -/
structure Env where
  size : Nat
  destExists : Bool
  probeOk : Bool
  contentLengthHeader : Option String
  acceptRangesHeader : Option String
  blockOutcome : Nat → BlockOutcome
  mergeOk : Bool

/-- Observable side effects of a run. -/
structure RunState where
  probeRequests : Nat
  blockRequests : List String
  tempDirCreated : Bool
  tempDirRemoved : Bool
  blockFiles : List (Option (List Nat))
  outputFile : Option (List Nat)
deriving Repr, DecidableEq

/-- No requests, no scratch directory, no files. -/
def initState : RunState := ⟨0, [], false, false, [], none⟩

/-- Whether `download_block` fails for this outcome: only a transport error
makes the spawned task return `Err`; the response status is never examined
and the body is streamed to the block file unconditionally. -/
def blockFails : BlockOutcome → Bool
  | .transportError => true
  | .response _ _ => false

/-- The block file written by `write_file` for this outcome (`none` when the
request itself failed, so the file was never created). -/
def blockFileOf : BlockOutcome → Option (List Nat)
  | .transportError => none
  | .response _ body => some body

/-- The join loop `for handle in handles` with `handle.await` twice unwrapped:
the first failed task in index order determines the propagated error. -/
def firstFailure (n : Nat) (outcome : Nat → BlockOutcome) : Option Nat :=
  (List.range n).find? (fun i => blockFails (outcome i))

/-- Everything `run` does after the probe checks: create the scratch
directory, spawn one ranged GET per block of the partition, let every spawned
task run to completion (no cancellation), join in index order, and on full
success merge the block files and remove the scratch directory. -/
def downloadAndMerge (env : Env) (content_length : Nat) (s : RunState) :
    RunState × Except DlError Unit :=
  let ranges := partition content_length env.size
  let files := (List.range env.size).map (fun i => blockFileOf (env.blockOutcome i))
  let s3 := { s with
    tempDirCreated := true,
    blockRequests := ranges.map (fun r => rangeHeaderValue r.start r.length),
    blockFiles := files }
  match firstFailure env.size env.blockOutcome with
  | some i => (s3, .error (.transferError i))
  | none =>
    if env.mergeOk then
      ({ s3 with
          outputFile := some (mergeFile [] (files.map (fun f => f.getD []))),
          tempDirRemoved := true }, .ok ())
    else
      ({ s3 with outputFile := some [] }, .error .mergeIOError)

/-- One whole run: `Config::get`'s destination pre-flight check (the lazy
`CONFIG` is first dereferenced while building the HEAD request, before any
request is sent), the HEAD probe, its Content-Length and Accept-Ranges
checks in source order, then `downloadAndMerge`. -/
def runModel (env : Env) : RunState × Except DlError Unit :=
  if env.destExists then (initState, .error .destinationExists)
  else
    let s1 : RunState := { initState with probeRequests := 1 }
    if env.probeOk = false then (s1, .error .probeTransportError)
    else
      match env.contentLengthHeader with
      | none => (s1, .error .missingLength)
      | some lenStr =>
        match parseUsize lenStr with
        | none => (s1, .error .invalidLength)
        | some content_length =>
          if env.acceptRangesHeader ≠ some "bytes" then
            (s1, .error .rangeUnsupported)
          else downloadAndMerge env content_length s1

lemma runModel_good (env : Env) (hd : env.destExists = false)
    (hp : env.probeOk = true) (lenStr : String) (cl : Nat)
    (hcl : env.contentLengthHeader = some lenStr) (hn : parseUsize lenStr = some cl)
    (har : env.acceptRangesHeader = some "bytes") :
    runModel env = downloadAndMerge env cl { initState with probeRequests := 1 } := by
  simp [runModel, hd, hp, hcl, hn, har]

lemma downloadAndMerge_result (env : Env) (cl : Nat) (s : RunState) :
    (downloadAndMerge env cl s).2 = .error .mergeIOError ∨
    (downloadAndMerge env cl s).2 = .ok () ∨
    ∃ i, (downloadAndMerge env cl s).2 = .error (.transferError i) := by
  cases hf : firstFailure env.size env.blockOutcome with
  | some i =>
    right; right
    exact ⟨i, by simp [downloadAndMerge, hf]⟩
  | none =>
    by_cases hm : env.mergeOk
    · right; left; simp [downloadAndMerge, hf, hm]
    · left; simp [downloadAndMerge, hf, hm]

/-- C7: if the destination output path already exists when the run starts,
the run fails immediately with DestinationExists, before any network request
is issued and before the scratch directory is created. -/
theorem dest_exists_fails_first (env : Env) (hd : env.destExists = true) :
    (runModel env).2 = .error .destinationExists ∧
    (runModel env).1.probeRequests = 0 ∧
    (runModel env).1.blockRequests = [] ∧
    (runModel env).1.tempDirCreated = false := by
  simp [runModel, hd, initState]

/-- Environment whose destination path is already taken. -/
def envDestTaken : Env where
  size := 2
  destExists := true
  probeOk := true
  contentLengthHeader := some "10"
  acceptRangesHeader := some "bytes"
  blockOutcome := fun _ => .response 200 []
  mergeOk := true

/-- Witness for C7 on `envDestTaken`. -/
theorem dest_exists_fails_first_witness :
    envDestTaken.destExists = true ∧
    ((runModel envDestTaken).2 = .error .destinationExists ∧
      (runModel envDestTaken).1.probeRequests = 0 ∧
      (runModel envDestTaken).1.blockRequests = [] ∧
      (runModel envDestTaken).1.tempDirCreated = false) :=
  ⟨rfl, dest_exists_fails_first envDestTaken rfl⟩

/-- C8: the scratch directory is removed exactly when the run, and so the
merge, completes fully successfully; after any failure once the directory
was created (a block download failure or a merge read/write failure) it is
left in place. -/
theorem cleanup_iff_success (env : Env) :
    ((runModel env).1.tempDirRemoved = true ↔ (runModel env).2 = .ok ()) ∧
    ((runModel env).1.tempDirCreated = true → (runModel env).2 ≠ .ok () →
      (runModel env).1.tempDirRemoved = false) := by
  by_cases hd : env.destExists
  · simp [runModel, hd, initState]
  · simp only [Bool.not_eq_true] at hd
    by_cases hp : env.probeOk = false
    · simp [runModel, hd, hp, initState]
    · cases hcl : env.contentLengthHeader with
      | none => simp [runModel, hd, hp, hcl, initState]
      | some lenStr =>
        cases hn : parseUsize lenStr with
        | none => simp [runModel, hd, hp, hcl, hn, initState]
        | some cl =>
          by_cases har : env.acceptRangesHeader = some "bytes"
          · rw [runModel_good env hd (by simpa using hp) lenStr cl hcl hn har]
            cases hf : firstFailure env.size env.blockOutcome with
            | some i => simp [downloadAndMerge, hf, initState]
            | none =>
              by_cases hm : env.mergeOk
              · simp [downloadAndMerge, hf, hm, initState]
              · simp [downloadAndMerge, hf, hm, initState]
          · simp [runModel, hd, hp, hcl, hn, har, initState]

/-- Environment whose probe response has neither a Content-Length nor an
Accept-Ranges header. -/
def envNoHeaders : Env where
  size := 1
  destExists := false
  probeOk := true
  contentLengthHeader := none
  acceptRangesHeader := none
  blockOutcome := fun _ => .response 200 []
  mergeOk := true

/-- C4 counterexample: the Content-Length check runs first, so with both
headers absent the run fails with MissingLength even though the
Accept-Ranges header is absent — refuting "fails with RangeUnsupported
exactly when the Accept-Ranges header is absent or differs from bytes". -/
theorem missing_length_masks_range_check :
    envNoHeaders.acceptRangesHeader = none ∧
    (runModel envNoHeaders).2 = .error .missingLength ∧
    ¬(runModel envNoHeaders).2 = .error .rangeUnsupported := by
  refine ⟨rfl, rfl, ?_⟩
  intro h
  simp [runModel, envNoHeaders] at h

/-- C4 (amended): with the destination free and the probe transport
succeeding, the run fails with MissingLength exactly when the probe response
carries no Content-Length header, and with RangeUnsupported exactly when
Content-Length is present and parses but the Accept-Ranges header is absent
or differs from the exact string "bytes" (the Content-Length check runs
first, so its failure masks the Accept-Ranges check); in either failure case
the scratch directory has not been created. -/
theorem probe_header_checks (env : Env) (hd : env.destExists = false)
    (hp : env.probeOk = true) :
    ((runModel env).2 = .error .missingLength ↔ env.contentLengthHeader = none) ∧
    ((runModel env).2 = .error .rangeUnsupported ↔
      ((∃ lenStr cl, env.contentLengthHeader = some lenStr ∧
          parseUsize lenStr = some cl) ∧
        env.acceptRangesHeader ≠ some "bytes")) ∧
    ((runModel env).2 = .error .missingLength ∨
        (runModel env).2 = .error .rangeUnsupported →
      (runModel env).1.tempDirCreated = false) := by
  have hp' : env.probeOk = false ↔ False := by simp [hp]
  cases hcl : env.contentLengthHeader with
  | none =>
    refine ⟨by simp [runModel, hd, hp, hcl], ?_, ?_⟩
    · simp [runModel, hd, hp, hcl]
    · intro h
      simp [runModel, hd, hp, hcl, initState]
  | some lenStr =>
    cases hn : parseUsize lenStr with
    | none =>
      refine ⟨?_, ?_, ?_⟩
      · simp [runModel, hd, hp, hcl, hn]
      · simp [runModel, hd, hp, hcl, hn]
      · intro h
        exfalso
        simp [runModel, hd, hp, hcl, hn] at h
    | some cl =>
      by_cases har : env.acceptRangesHeader = some "bytes"
      · have hrm := runModel_good env hd hp lenStr cl hcl hn har
        have hres := downloadAndMerge_result env cl { initState with probeRequests := 1 }
        refine ⟨?_, ?_, ?_⟩
        · rw [hrm]
          constructor
          · intro h
            rcases hres with h1 | h1 | ⟨i, h1⟩ <;> rw [h1] at h <;> simp at h
          · intro h
            simp at h
        · rw [hrm]
          constructor
          · intro h
            rcases hres with h1 | h1 | ⟨i, h1⟩ <;> rw [h1] at h <;> simp at h
          · rintro ⟨-, hne⟩
            exact absurd har hne
        · rw [hrm]
          intro h
          rcases h with h | h <;>
            rcases hres with h1 | h1 | ⟨i, h1⟩ <;> rw [h1] at h <;> simp at h
      · refine ⟨?_, ?_, ?_⟩
        · simp [runModel, hd, hp, hcl, hn, har]
        · constructor
          · intro _
            exact ⟨⟨lenStr, cl, rfl, hn⟩, har⟩
          · intro _
            simp [runModel, hd, hp, hcl, hn, har]
        · intro h
          simp [runModel, hd, hp, hcl, hn, har, initState]

/-- Environment whose probe response has no Content-Length header. -/
def envNoLength : Env where
  size := 2
  destExists := false
  probeOk := true
  contentLengthHeader := none
  acceptRangesHeader := some "bytes"
  blockOutcome := fun _ => .response 200 []
  mergeOk := true

/-- Witness for C4 on `envNoLength`. -/
theorem probe_header_checks_witness :
    envNoLength.destExists = false ∧ envNoLength.probeOk = true ∧
    (((runModel envNoLength).2 = .error .missingLength ↔
        envNoLength.contentLengthHeader = none) ∧
      ((runModel envNoLength).2 = .error .rangeUnsupported ↔
        ((∃ lenStr cl, envNoLength.contentLengthHeader = some lenStr ∧
            parseUsize lenStr = some cl) ∧
          envNoLength.acceptRangesHeader ≠ some "bytes")) ∧
      ((runModel envNoLength).2 = .error .missingLength ∨
          (runModel envNoLength).2 = .error .rangeUnsupported →
        (runModel envNoLength).1.tempDirCreated = false)) :=
  ⟨rfl, rfl, probe_header_checks envNoLength rfl rfl⟩

/-- C3 (amended): if any block's fetch suffers a transport-level error, that
block's task fails, the failure propagates to the coordinator at the join
point as a TransferError, the merge phase never runs, and the output file
does not exist afterward. (A non-success HTTP status is not detected by
`download_block`; see the counterexample theorem.) -/
theorem block_transport_error_aborts (env : Env) (hd : env.destExists = false)
    (hp : env.probeOk = true) (lenStr : String) (cl : Nat)
    (hcl : env.contentLengthHeader = some lenStr) (hn : parseUsize lenStr = some cl)
    (har : env.acceptRangesHeader = some "bytes")
    (hfail : ∃ i, i < env.size ∧ env.blockOutcome i = .transportError) :
    (∃ j, j < env.size ∧ env.blockOutcome j = .transportError ∧
      (runModel env).2 = .error (.transferError j)) ∧
    (runModel env).1.outputFile = none ∧
    (runModel env).1.tempDirRemoved = false := by
  obtain ⟨i, hi, hout⟩ := hfail
  have hne : firstFailure env.size env.blockOutcome ≠ none := by
    intro h
    rw [firstFailure, List.find?_eq_none] at h
    have hi' := h i (List.mem_range.mpr hi)
    rw [hout] at hi'
    simp [blockFails] at hi'
  obtain ⟨j, hj⟩ : ∃ j, firstFailure env.size env.blockOutcome = some j := by
    cases h : firstFailure env.size env.blockOutcome with
    | none => exact absurd h hne
    | some j => exact ⟨j, rfl⟩
  have hj' := hj
  rw [firstFailure] at hj'
  have hjp := List.find?_some hj'
  simp only [] at hjp
  have hjmem : j < env.size := List.mem_range.mp (List.mem_of_find?_eq_some hj')
  have hjout : env.blockOutcome j = .transportError := by
    cases hb : env.blockOutcome j with
    | transportError => rfl
    | response st body => rw [hb] at hjp; simp [blockFails] at hjp
  rw [runModel_good env hd hp lenStr cl hcl hn har]
  refine ⟨⟨j, hjmem, hjout, ?_⟩, ?_, ?_⟩ <;>
    simp [downloadAndMerge, hj, initState]

/-- Environment where block 0's transport fails and block 1 succeeds. -/
def envBlockFails : Env where
  size := 2
  destExists := false
  probeOk := true
  contentLengthHeader := some "4"
  acceptRangesHeader := some "bytes"
  blockOutcome := fun i => if i = 0 then .transportError else .response 200 [1, 2]
  mergeOk := true

/-- Witness for the amended C3 on `envBlockFails`. -/
theorem block_transport_error_aborts_witness :
    envBlockFails.destExists = false ∧ envBlockFails.probeOk = true ∧
    envBlockFails.contentLengthHeader = some "4" ∧
    parseUsize "4" = some 4 ∧
    envBlockFails.acceptRangesHeader = some "bytes" ∧
    (∃ i, i < envBlockFails.size ∧
      envBlockFails.blockOutcome i = .transportError) ∧
    ((∃ j, j < envBlockFails.size ∧
        envBlockFails.blockOutcome j = .transportError ∧
        (runModel envBlockFails).2 = .error (.transferError j)) ∧
      (runModel envBlockFails).1.outputFile = none ∧
      (runModel envBlockFails).1.tempDirRemoved = false) :=
  ⟨rfl, rfl, rfl, by decide, rfl, ⟨0, by decide, rfl⟩,
    block_transport_error_aborts envBlockFails rfl rfl "4" 4 rfl (by decide) rfl
      ⟨0, by decide, rfl⟩⟩

/-- Environment where block 0's response has a non-success status 404 but
transport succeeds. -/
def envBadStatus : Env where
  size := 1
  destExists := false
  probeOk := true
  contentLengthHeader := some "3"
  acceptRangesHeader := some "bytes"
  blockOutcome := fun _ => .response 404 [9, 9, 9]
  mergeOk := true

/-- C3 counterexample: `download_block` never inspects the response status,
so with a non-success status on block 0's fetch the run does NOT fail: it
returns success, the 404 body is written to the block file, the merge runs,
and the output file exists. -/
theorem non_success_status_not_detected :
    (runModel envBadStatus).2 = .ok () ∧
    (runModel envBadStatus).1.outputFile = some [9, 9, 9] ∧
    (runModel envBadStatus).1.tempDirRemoved = true := by
  refine ⟨?_, ?_, ?_⟩ <;> rfl

/-- C6: for a block with start `s` and length `L ≥ 1`, `download_block`
issues exactly one HTTP request; its Range header is the string
`bytes=s-(s+L-1)` and those inclusive byte bounds describe exactly the
half-open range `[s, s+L)`. -/
theorem range_header_inclusive_bounds (s L : Nat) (hL : 1 ≤ L) :
    (downloadBlockRequests s L).length = 1 ∧
    downloadBlockRequests s L
      = ["bytes=" ++ toString s ++ "-" ++ toString (s + L - 1)] ∧
    { x : Nat | s ≤ x ∧ x ≤ s + L - 1 } = Set.Ico s (s + L) := by
  refine ⟨rfl, rfl, ?_⟩
  ext x
  simp only [Set.mem_setOf_eq, Set.mem_Ico]
  omega

/-- Witness for C6 at `start = 34`, `length = 33` (block 1 of the 100-byte,
3-block scenario). -/
theorem range_header_inclusive_bounds_witness :
    1 ≤ 33 ∧
    ((downloadBlockRequests 34 33).length = 1 ∧
      downloadBlockRequests 34 33
        = ["bytes=" ++ toString 34 ++ "-" ++ toString (34 + 33 - 1)] ∧
      { x : Nat | 34 ≤ x ∧ x ≤ 34 + 33 - 1 } = Set.Ico 34 (34 + 33)) :=
  ⟨by decide, range_header_inclusive_bounds 34 33 (by decide)⟩

/-- The computation `start + block_size - 1` (Rust `usize`) underflows
exactly when `start + block_size = 0`. -/
def underflows (r : ByteRange) : Prop := r.start + r.length = 0

/-- Without underflow, the computed inclusive upper bound is inverted
(`end < start`), which happens exactly for an empty block starting past 0. -/
def inverted (r : ByteRange) : Prop :=
  r.start + r.length ≠ 0 ∧ r.start + r.length - 1 < r.start

/-- C9: the Range upper bound `start + block_size - 1` is well-defined with
`end ≥ start` only when the block length is at least 1: `total_length = 0`
makes block 0's bound underflow, `0 < total_length < n` gives every block
`i ≥ 1` length 0 and an inverted bound, and absence of both problems is
equivalent to `total_length ≥ n`. -/
theorem range_bounds_need_total_ge_n (tl n : Nat) (hn : 1 ≤ n) :
    (tl = 0 → underflows (rangeAt tl n 0)) ∧
    (0 < tl → tl < n → ∀ i, 1 ≤ i → i < n →
      (rangeAt tl n i).length = 0 ∧ inverted (rangeAt tl n i)) ∧
    ((∀ i, i < n → ¬underflows (rangeAt tl n i) ∧ ¬inverted (rangeAt tl n i))
      ↔ n ≤ tl) := by
  refine ⟨?_, ?_, ?_⟩
  · intro h0
    subst h0
    rw [rangeAt_eq 0 n 0 (by omega)]
    simp [underflows]
  · intro hpos hlt i hi1 hin
    rw [rangeAt_eq tl n i (by omega), if_neg (by omega)]
    have hdiv : tl / n = 0 := Nat.div_eq_of_lt hlt
    have hmod : tl % n = tl := Nat.mod_eq_of_lt hlt
    rw [hdiv, hmod]
    refine ⟨rfl, ?_, ?_⟩ <;> simp <;> omega
  · constructor
    · intro hall
      by_contra hlt
      push_neg at hlt
      rcases Nat.eq_zero_or_pos tl with h0 | hpos
      · have := (hall 0 (by omega)).1
        subst h0
        rw [rangeAt_eq 0 n 0 (by omega)] at this
        simp [underflows] at this
      · have h1n : 1 < n := by omega
        have := (hall 1 (by omega)).2
        rw [rangeAt_eq tl n 1 (by omega), if_neg (by omega)] at this
        have hdiv : tl / n = 0 := Nat.div_eq_of_lt hlt
        have hmod : tl % n = tl := Nat.mod_eq_of_lt hlt
        rw [hdiv, hmod] at this
        simp [inverted] at this
        omega
    · intro hge i hin
      have hbs : 1 ≤ tl / n := (Nat.one_le_div_iff (by omega)).mpr hge
      rw [rangeAt_eq tl n i hin]
      by_cases hi0 : i = 0
      · rw [if_pos hi0]
        constructor
        · simp [underflows]
          omega
        · simp [inverted]
      · rw [if_neg hi0]
        constructor
        · simp [underflows]
          omega
        · simp [inverted]
          intro _
          omega

/-- Witness for C9 at `total_length = 2`, `n = 3` (a case with zero-length,
inverted blocks). -/
theorem range_bounds_need_total_ge_n_witness :
    1 ≤ 3 ∧
    ((2 = 0 → underflows (rangeAt 2 3 0)) ∧
      (0 < 2 → 2 < 3 → ∀ i, 1 ≤ i → i < 3 →
        (rangeAt 2 3 i).length = 0 ∧ inverted (rangeAt 2 3 i)) ∧
      ((∀ i, i < 3 → ¬underflows (rangeAt 2 3 i) ∧ ¬inverted (rangeAt 2 3 i))
        ↔ 3 ≤ 2)) :=
  ⟨by decide, range_bounds_need_total_ge_n 2 3 (by decide)⟩

end Download
